import Mathlib

/-
Verification development for the markit tool (src/markit/markit.py), a
configuration-driven markdown conversion pipeline.  The Python source is
embedded shallowly: the configuration document, the converter registry, the
CLI argument split, the selection pass, the pipeline runner and the polling
watch loop are all modelled as executable Lean definitions, with external
process execution abstracted as an oracle `exec : List String → List Nat`
mapping a command line to the bytes the process writes to stdout.
Only observable process invocations are recorded; progress printing
(`print(...)` lines) is not modelled, and the `verbose` flag, which only
gates an extra echo of the command line, is carried but has no effect on
the recorded invocations.
-/

/-- ConverterSpec: one section of the configuration, as built by
`read_converters` (markit.py lines 105-118).  `extension` and `command` come
from the mandatory keys; `first` and `also` are the optional `;`-separated
command lists, `none` when the key is absent. -/
structure Converter where
  extension : String
  command : List String
  first : Option (List (List String))
  also : Option (List (List String))
deriving DecidableEq, Repr

/-- Registry: the global CONVERTERS dict after the selection pass in `main`.
Keys stay present when a converter is disabled; its value becomes `None`
(here `none`), mirroring `CONVERTERS[format] = None` (markit.py line 47). -/
abbrev Registry := List (String × Option Converter)

/-- ConfigDoc: a parsed configuration document, a list of named sections,
each section a list of key/value pairs.  ConfigParser rejects duplicate
section names, so documents of interest are name-unique. -/
abbrev ConfigDoc := List (String × List (String × String))

/-- lookupKey: access `config[section][key]`, `none` when the key is absent
(where Python raises KeyError). -/
def lookupKey (sec : List (String × String)) (k : String) : Option String :=
  (sec.find? (fun p => p.1 == k)).map (fun p => p.2)

/-- pyStartsWith: Python `str.startswith`, as a prefix test on the
character lists. -/
def pyStartsWith (s pre : String) : Bool :=
  pre.data.isPrefixOf s.data

/-- splitCharsBy: split a character list at every character satisfying `p`,
keeping empty pieces (the semantics of Python `str.split(sep)`). -/
def splitCharsBy (p : Char → Bool) : List Char → List (List Char)
  | [] => [[]]
  | c :: rest =>
      if p c then [] :: splitCharsBy p rest
      else
        match splitCharsBy p rest with
        | [] => [[c]]
        | piece :: pieces => (c :: piece) :: pieces

/-- splitWs: Python `str.split()` with no argument — split on whitespace,
discarding empty pieces. -/
def splitWs (s : String) : List String :=
  ((splitCharsBy (fun c => c.isWhitespace) s.data).filter
    (fun l => ! l.isEmpty)).map List.asString

/-- splitSemi: Python `str.split(';')` — split at every `;`, keeping empty
pieces. -/
def splitSemi (s : String) : List String :=
  (splitCharsBy (fun c => c = ';') s.data).map List.asString

/-- readConverters: the loop body of `read_converters` (markit.py lines
111-118).  Each section must provide `extension` and `command`; a missing
mandatory key raises KeyError, modelled as `Except.error`.  The optional
`first` and `also` keys are `;`-split into whitespace-split token lists. -/
def readConverters : ConfigDoc → Except String (List (String × Converter))
  | [] => Except.ok []
  | (name, sec) :: rest =>
      match lookupKey sec ("extension") with
      | none => Except.error (("KeyError: extension in section ") ++ name)
      | some ext =>
        match lookupKey sec ("command") with
        | none => Except.error (("KeyError: command in section ") ++ name)
        | some cmd =>
          match readConverters rest with
          | Except.error e => Except.error e
          | Except.ok more =>
              Except.ok ((name,
                { extension := ext
                  command := splitWs cmd
                  first := (lookupKey sec ("first")).map (fun v => (splitSemi v).map splitWs)
                  also := (lookupKey sec ("also")).map (fun v => (splitSemi v).map splitWs)
                  : Converter }) :: more)

/-- configSections: `ConfigParser.read` on the configuration path.  When the
file does not exist, `read` silently reads nothing and the parser has no
sections; there is no exception (markit.py line 108). -/
def configSections : Option ConfigDoc → ConfigDoc
  | none => []
  | some doc => doc

/-- readConvertersFromSource: `read_converters` end to end, from an optional
configuration source (`none` models a missing configuration file). -/
def readConvertersFromSource (src : Option ConfigDoc) :
    Except String (List (String × Converter)) :=
  readConverters (configSections src)

/-- positionals: `[a for a in sys.argv[1:] if not a.startswith('-')]`
(markit.py line 38). -/
def positionals (argv : List String) : List String :=
  argv.filter (fun a => ! pyStartsWith a ("-"))

/-- optionChars: `''.join(a for a in sys.argv[1:] if a.startswith('-')).replace('-', '')`
(markit.py line 39), before the final `set(...)`.  The de-duplicated set is
recovered with `List.toFinset`. -/
def optionChars (argv : List String) : List Char :=
  (((argv.filter (fun a => pyStartsWith a ("-"))).map String.data).flatten).filter
    (fun c => c != '-')

/-- selectConverters: the selection pass of `main` (markit.py lines 41-47).
Walks the registry in order; hidden sections (name starting with `_`) are
skipped (left enabled); a name found among the remaining positional
arguments is kept enabled and one occurrence of it is consumed
(`arguments.remove`); any other converter is disabled by storing `none`.
Returns the registry and the surviving positional arguments. -/
def selectConverters : List (String × Converter) → List String →
    Registry × List String
  | [], args => ([], args)
  | (name, c) :: rest, args =>
      if pyStartsWith name ("_") then
        let r := selectConverters rest args
        ((name, some c) :: r.1, r.2)
      else if name ∈ args then
        let r := selectConverters rest (args.erase name)
        ((name, some c) :: r.1, r.2)
      else
        let r := selectConverters rest args
        ((name, none) :: r.1, r.2)

/-- charListLt: lexicographic comparison of character lists by code point,
which is how Python compares strings in `sorted`. -/
def charListLt : List Char → List Char → Bool
  | _, [] => false
  | [], _ :: _ => true
  | c :: cs, d :: ds =>
      if c.toNat < d.toNat then true
      else if d.toNat < c.toNat then false
      else charListLt cs ds

/-- pyStrLe: the non-strict string order used by Python `sorted`. -/
def pyStrLe (a b : String) : Bool :=
  ! charListLt b.data a.data

/-- printHelp: `print_help` (markit.py lines 121-124) interpolates
`', '.join(sorted(CONVERTERS))` into the usage text; the model keeps the
sorted list of all registry keys, hidden and disabled ones included. -/
def printHelp (reg : Registry) : List String :=
  List.insertionSort (fun a b => pyStrLe a b = true) (reg.map Prod.fst)

/-- splitAtLastOcc: split a character list at the last occurrence of `sep`;
the first component keeps the separator at its end, and is empty when `sep`
does not occur.  Building block for `os.path.splitext`. -/
def splitAtLastOcc (sep : Char) : List Char → List Char × List Char
  | [] => ([], [])
  | c :: rest =>
      if sep ∈ rest then
        let p := splitAtLastOcc sep rest
        (c :: p.1, p.2)
      else if c = sep then ([c], rest)
      else ([], c :: rest)

/-- splitextData: `posixpath.splitext` on a character list.  The extension
starts at the last dot of the basename, provided some earlier character of
the basename is not a dot (leading dots never begin an extension). -/
def splitextData (p : List Char) : List Char × List Char :=
  let ds := splitAtLastOcc '/' p
  let de := splitAtLastOcc '.' ds.2
  if de.1 = [] then (p, [])
  else if (de.1.dropLast).any (fun c => c != '.') then
    (ds.1 ++ de.1.dropLast, '.' :: de.2)
  else (p, [])

/-- splitext: `os.path.splitext` on strings (posix separator). -/
def splitext (p : String) : String × String :=
  ((splitextData p.data).1.asString, (splitextData p.data).2.asString)

/-- outfileOf: `os.path.splitext(filename)[0] + '.' + converter['extension']`
(markit.py line 76). -/
def outfileOf (file : String) (ext : String) : String :=
  (splitext file).1 ++ (".") ++ ext

/-- FmtState: scanning state for Python `str.format`: in literal text, just
after `{`, just after `}`, or inside a replacement field with the name
accumulated so far. -/
inductive FmtState where
  | lit : FmtState
  | sawOpen : FmtState
  | sawClose : FmtState
  | inField : List Char → FmtState

/-- pyFormatGo: Python `str.format` with a single keyword argument, for
plain replacement fields (no conversion or format spec, which the markit
configuration does not use).  `{{` and `}}` are escapes for literal braces,
`\x7bfld\x7d` is replaced by `value`, any other field name and any stray
single brace is an error (KeyError / ValueError in Python). -/
def pyFormatGo (fld value : List Char) : FmtState → List Char → Except String (List Char)
  | FmtState.lit, [] => Except.ok []
  | FmtState.lit, c :: rest =>
      if c = '\x7b' then pyFormatGo fld value FmtState.sawOpen rest
      else if c = '\x7d' then pyFormatGo fld value FmtState.sawClose rest
      else (fun l => c :: l) <$> pyFormatGo fld value FmtState.lit rest
  | FmtState.sawOpen, [] => Except.error ("ValueError: Single open brace encountered")
  | FmtState.sawOpen, c :: rest =>
      if c = '\x7b' then (fun l => '\x7b' :: l) <$> pyFormatGo fld value FmtState.lit rest
      else if c = '\x7d' then
        if fld = [] then (fun l => value ++ l) <$> pyFormatGo fld value FmtState.lit rest
        else Except.error ("KeyError: empty field")
      else pyFormatGo fld value (FmtState.inField [c]) rest
  | FmtState.sawClose, [] => Except.error ("ValueError: Single closing brace encountered")
  | FmtState.sawClose, c :: rest =>
      if c = '\x7d' then (fun l => '\x7d' :: l) <$> pyFormatGo fld value FmtState.lit rest
      else Except.error ("ValueError: Single closing brace encountered")
  | FmtState.inField acc, [] => Except.error ("ValueError: expected closing brace")
  | FmtState.inField acc, c :: rest =>
      if c = '\x7d' then
        if acc = fld then (fun l => value ++ l) <$> pyFormatGo fld value FmtState.lit rest
        else Except.error ("KeyError: unknown field")
      else pyFormatGo fld value (FmtState.inField (acc ++ [c])) rest

/-- pyFormat: `s.format(fld=value)` on strings, via `pyFormatGo`. -/
def pyFormat (fld value s : String) : Except String String :=
  (pyFormatGo fld.data value.data FmtState.lit s.data).map List.asString

/-- formatCmd: `[s.format(fld=value) for s in command]` (markit.py lines 70
and 85). -/
def formatCmd (fld value : String) : List String → Except String (List String)
  | [] => Except.ok []
  | s :: rest =>
      match pyFormat fld value s with
      | Except.error e => Except.error e
      | Except.ok t =>
        match formatCmd fld value rest with
        | Except.error e => Except.error e
        | Except.ok ts => Except.ok (t :: ts)

/-- ProcCall: one observable external process invocation: the command line,
the bytes piped to its stdin (`none` when stdin is inherited), and whether
stdout is captured (`stdout=subprocess.PIPE`). -/
structure ProcCall where
  cmd : List String
  input : Option (List Nat)
  captureOutput : Bool
deriving DecidableEq, Repr

/-- PANDOC: `'pandoc -f markdown'.split()` (markit.py line 30). -/
def PANDOC : List String := [("pandoc"), ("-f"), ("markdown")]

/-- pyFalsy: Python truthiness of the `stdin` variable in
`markdown_to_other`: falsy when it is still `None` or when the captured
bytes are empty (`b''`). -/
def pyFalsy : Option (List Nat) → Bool
  | none => true
  | some [] => true
  | some (_ :: _) => false

/-- runFirsts: the `first` loop of `markdown_to_other` (markit.py lines
69-72): format each pre-command with `infile=filename`, run it with stdout
captured, and overwrite `stdin` with its output, so only the last
pre-command's output survives. -/
def runFirsts (exec : List String → List Nat) (file : String)
    (stdin : Option (List Nat)) :
    List (List String) → Except String (List ProcCall × Option (List Nat))
  | [] => Except.ok ([], stdin)
  | command :: rest =>
      match formatCmd ("infile") file command with
      | Except.error e => Except.error e
      | Except.ok cmd =>
        match runFirsts exec file (some (exec cmd)) rest with
        | Except.error e => Except.error e
        | Except.ok r => Except.ok (ProcCall.mk cmd none true :: r.1, r.2)

/-- runAlsos: the `also` loop of `markdown_to_other` (markit.py lines
85-87): format each post-command with `outfile=outfile` and run it with
inherited streams. -/
def runAlsos : List (List String) → String → Except String (List ProcCall)
  | [], _ => Except.ok []
  | command :: rest, outfile =>
      match formatCmd ("outfile") outfile command with
      | Except.error e => Except.error e
      | Except.ok cmd =>
        match runAlsos rest outfile with
        | Except.error e => Except.error e
        | Except.ok more => Except.ok (ProcCall.mk cmd none false :: more)

/-- runConverter: the body of the `markdown_to_other` loop for one enabled
converter (markit.py lines 69-87): run the pre-commands, build the pandoc
command line with the `-o` output flag, append the source file name exactly
when `stdin` is falsy (`if not stdin`), run it feeding the piped bytes, and
then run the post-commands. -/
def runConverter (exec : List String → List Nat) (file : String) (vb : Bool)
    (name : String) (c : Converter) : Except String (List ProcCall) :=
  match runFirsts exec file none (c.first.getD []) with
  | Except.error e => Except.error e
  | Except.ok r =>
      let outfile := outfileOf file c.extension
      let baseCmd := PANDOC ++ c.command ++ [("-o"), outfile]
      let mainCmd := if pyFalsy r.2 then baseCmd ++ [file] else baseCmd
      match runAlsos (c.also.getD []) outfile with
      | Except.error e => Except.error e
      | Except.ok alsoCalls =>
          Except.ok (r.1 ++ [ProcCall.mk mainCmd r.2 false] ++ alsoCalls)

/-- markdown_to_other: `markdown_to_other` (markit.py lines 60-87): walk the
registry in order, skip entries whose value is `None`, and run the pipeline
of every enabled converter, collecting all process invocations. -/
def markdown_to_other (exec : List String → List Nat) (registry : Registry)
    (file : String) (vb : Bool) : Except String (List ProcCall) :=
  match registry with
  | [] => Except.ok []
  | (_, none) :: rest => markdown_to_other exec rest file vb
  | (name, some c) :: rest =>
      match runConverter exec file vb name c with
      | Except.error e => Except.error e
      | Except.ok calls =>
        match markdown_to_other exec rest file vb with
        | Except.error e => Except.error e
        | Except.ok more => Except.ok (calls ++ more)

/-- run_continuously: `run_continuously` (markit.py lines 91-102), driven by
a finite trace of polled modification times.  The state is the last
captured timestamp (`none` on the initial call from `main`, since the
`timestamp` parameter defaults to `None`); every polled value different
from it triggers one full `markdown_to_other` run and becomes the new
captured timestamp. -/
def run_continuously (exec : List String → List Nat) (registry : Registry)
    (file : String) (vb : Bool) :
    Option Nat → List Nat → List (Except String (List ProcCall))
  | _, [] => []
  | ts, m :: rest =>
      if some m ≠ ts then
        markdown_to_other exec registry file vb ::
          run_continuously exec registry file vb (some m) rest
      else run_continuously exec registry file vb ts rest

/-- observedChanges: the number of polls in a trace whose value differs from
the last seen modification time, starting from a captured timestamp `t`. -/
def observedChanges (t : Nat) : List Nat → Nat
  | [] => 0
  | m :: rest => if m ≠ t then 1 + observedChanges m rest else observedChanges t rest

/-- MainOutcome: what `main` (markit.py lines 33-57) does after reading the
configuration: crash on a configuration error, print help and exit 0, enter
the watch loop, or run the pipeline once. -/
inductive MainOutcome where
  | configError : String → MainOutcome
  | helpExit : List String → MainOutcome
  | watchMode : String → Registry → Bool → MainOutcome
  | singleRun : Except String (List ProcCall) → MainOutcome
deriving Repr

/-- mainRun: `main` (markit.py lines 33-57).  Read the converters, split
argv into positionals and option characters, run the selection pass, then:
help and exit 0 when the surviving positionals are not exactly one or `h`
was given; otherwise watch mode when `c` was given, else a single run. -/
def mainRun (exec : List String → List Nat) (src : Option ConfigDoc)
    (argv : List String) : MainOutcome :=
  match readConvertersFromSource src with
  | Except.error e => MainOutcome.configError e
  | Except.ok conv =>
      let args := positionals argv
      let opts := optionChars argv
      let sel := selectConverters conv args
      if sel.2.length ≠ 1 ∨ 'h' ∈ opts then MainOutcome.helpExit (printHelp sel.1)
      else if 'c' ∈ opts then
        MainOutcome.watchMode (sel.2.headD ("")) sel.1 ('V' ∈ opts)
      else
        MainOutcome.singleRun
          (markdown_to_other exec sel.1 (sel.2.headD ("")) ('V' ∈ opts))

/-- outcomeCalls: the external process invocations `main` performs before
entering any watch loop: none on the help path or a configuration error,
the pipeline's invocations on a single run. -/
def outcomeCalls : MainOutcome → List ProcCall
  | MainOutcome.configError _ => []
  | MainOutcome.helpExit _ => []
  | MainOutcome.watchMode _ _ _ => []
  | MainOutcome.singleRun r => (r.toOption).getD []

/-- mainExitCode: the process exit status of each outcome: `sys.exit(0)` on
the help path, 0 on normal completion and on interrupt during watch mode,
and `none` for an uncaught exception (configuration or formatting error). -/
def mainExitCode : MainOutcome → Option Nat
  | MainOutcome.configError _ => none
  | MainOutcome.helpExit _ => some 0
  | MainOutcome.watchMode _ _ _ => some 0
  | MainOutcome.singleRun (Except.ok _) => some 0
  | MainOutcome.singleRun (Except.error _) => none

/-- watchCalls: the pipeline runs a `watchMode` outcome performs over a
finite trace of polled modification times; `main` enters
`run_continuously` with no captured timestamp. -/
def watchCalls (exec : List String → List Nat) (o : MainOutcome)
    (trace : List Nat) : List (Except String (List ProcCall)) :=
  match o with
  | MainOutcome.watchMode file reg vb => run_continuously exec reg file vb none trace
  | _ => []

/-- selectableNames: the configuration section names usable as CLI selector
tokens: those not starting with the reserved `_` prefix (markit.py lines
41-43). -/
def selectableNames (conv : List (String × Converter)) : List String :=
  (conv.map Prod.fst).filter (fun n => ! pyStartsWith n ("_"))

/-- joinWith: interleave a separator between chunks; used to describe
placeholder substitution on a token split at its placeholders. -/
def joinWith (sep : List Char) : List (List Char) → List Char
  | [] => []
  | [x] => x
  | x :: rest => x ++ sep ++ joinWith sep rest

lemma run_continuously_some_length (exec : List String → List Nat)
    (reg : Registry) (file : String) (vb : Bool) :
    ∀ (tr : List Nat) (t : Nat),
      (run_continuously exec reg file vb (some t) tr).length = observedChanges t tr := by
  intro tr
  induction tr with
  | nil => intro t; rfl
  | cons m rest ih =>
      intro t
      by_cases h : m = t
      · subst h
        simp [run_continuously, observedChanges, ih]
      · simp [run_continuously, observedChanges, h, ih, Nat.add_comm]

/-- C1 (counterexample): the claim requires the watch loop to capture the
file's current timestamp first and never invoke the Pipeline Runner on an
unchanged poll; but `run_continuously` starts with no captured timestamp
(`main` passes no `timestamp` argument), so over a trace where the file's
modification time stays at its initial value 7 the pipeline still runs
once, although zero changes are observed relative to that value. -/
theorem watch_startup_run_without_change_cex :
    (run_continuously (fun _ => []) [] ("f.md") false none [7]).length = 1
      ∧ observedChanges 7 [7] = 0 :=
  ⟨rfl, rfl⟩

/-- C1 (amended): the watch loop starts with no captured timestamp, so the
first poll always triggers one pipeline run; from a captured timestamp
onwards the Pipeline Runner is invoked exactly once per observed
modification-time change and never on a poll where the value is
unchanged. -/
theorem watch_runs_once_per_observed_change_after_startup
    (exec : List String → List Nat) (reg : Registry) (file : String)
    (vb : Bool) (m : Nat) (tr : List Nat) :
    (run_continuously exec reg file vb none (m :: tr)).length
        = 1 + observedChanges m tr
      ∧ ∀ t : Nat,
        (run_continuously exec reg file vb (some t) tr).length
          = observedChanges t tr := by
  refine ⟨?_, fun t => run_continuously_some_length exec reg file vb tr t⟩
  simp [run_continuously, run_continuously_some_length, Nat.add_comm]

/-- C9: in watch mode `main` enters `run_continuously` with no captured
timestamp, so whatever the file's actual modification time is at the first
poll, a full `markdown_to_other` run over the active registry happens
immediately, before any change has been observed. -/
theorem watch_mode_initial_conversion (exec : List String → List Nat)
    (reg : Registry) (file : String) (vb : Bool) (m : Nat) (tr : List Nat) :
    watchCalls exec (MainOutcome.watchMode file reg vb) (m :: tr)
      = markdown_to_other exec reg file vb ::
          run_continuously exec reg file vb (some m) tr := by
  simp [watchCalls, run_continuously]

lemma readConverters_ok_iff (secs : ConfigDoc) :
    (∃ conv, readConverters secs = Except.ok conv) ↔
      ∀ p ∈ secs, (lookupKey p.2 ("extension")).isSome = true
        ∧ (lookupKey p.2 ("command")).isSome = true := by
  induction secs with
  | nil => simp [readConverters]
  | cons hd tl ih =>
      obtain ⟨name, sec⟩ := hd
      cases hext : lookupKey sec ("extension") with
      | none =>
          simp [readConverters, hext]
      | some ve =>
          cases hcmd : lookupKey sec ("command") with
          | none =>
              simp [readConverters, hext, hcmd]
          | some vc =>
              cases htl : readConverters tl with
              | error e =>
                  simp only [readConverters, hext, hcmd, htl]
                  refine ⟨fun h => absurd h (by simp), fun hall => ?_⟩
                  exfalso
                  obtain ⟨conv, hc⟩ :=
                    ih.mpr (fun p hp => hall p (List.mem_cons_of_mem _ hp))
                  rw [htl] at hc
                  exact Except.noConfusion hc
              | ok more =>
                  have htl2 : ∀ p ∈ tl, (lookupKey p.2 ("extension")).isSome = true
                      ∧ (lookupKey p.2 ("command")).isSome = true :=
                    ih.mp ⟨more, htl⟩
                  simp only [readConverters, hext, hcmd, htl]
                  refine ⟨fun _ p hp => ?_, fun _ => ⟨_, rfl⟩⟩
                  rcases List.mem_cons.mp hp with h | h
                  · subst h
                    simp [hext, hcmd]
                  · exact htl2 p h

/-- C2 (counterexample): the claim says loading fails with a ConfigError
when the configuration source does not exist; but `ConfigParser.read`
silently ignores a missing file, so `read_converters` succeeds with an
empty registry and no error is raised. -/
theorem missing_config_source_loads_empty_cex :
    readConvertersFromSource none = Except.ok [] :=
  rfl

/-- C2 (amended): loading raises a fatal error (a KeyError) exactly when
some section is missing the mandatory `extension` or `command` key, and
that error aborts `main` before any conversion regardless of the command
line; a missing configuration source, however, does NOT fail: the parser
silently yields an empty registry. -/
theorem readConverters_mandatory_keys :
    (∀ secs : ConfigDoc,
        (∃ conv, readConverters secs = Except.ok conv) ↔
          ∀ p ∈ secs, (lookupKey p.2 ("extension")).isSome = true
            ∧ (lookupKey p.2 ("command")).isSome = true)
      ∧ readConvertersFromSource none = Except.ok []
      ∧ ∀ (exec : List String → List Nat) (argv : List String),
          mainRun exec (some [(("x"), [])]) argv
            = MainOutcome.configError (("KeyError: extension in section x")) :=
  ⟨readConverters_ok_iff, rfl, fun _ _ => rfl⟩

/-- cPdf: a demo converter for concrete counterexamples: extension `pdf`,
command token `pp`. -/
def cPdf : Converter :=
  { extension := ("pdf"), command := [("pp")], first := none, also := none }

/-- cMeta: a demo converter carried by a hidden `_meta` section: extension
`meta`, command token `mm`. -/
def cMeta : Converter :=
  { extension := ("meta"), command := [("mm")], first := none, also := none }

/-- demoConv: a loaded two-section registry with a hidden section and a
public one. -/
def demoConv : List (String × Converter) :=
  [(("_meta"), cMeta), (("pdf"), cPdf)]

/-- C3 (counterexample): selecting `pdf` from a registry that also contains
the hidden section `_meta` leaves `_meta` enabled (the selection pass skips
`_`-prefixed names without disabling them), and the Pipeline Runner then
executes `_meta`'s command `mm` — the hidden section IS run as an output
target, contrary to the claim. -/
theorem hidden_section_executed_cex :
    ((markdown_to_other (fun _ => []) (selectConverters demoConv [("pdf"), ("doc.md")]).1
        ("doc.md") false).toOption.getD []).any
      (fun pc => pc.cmd.any (fun t => t == ("mm"))) = true := by
  rfl

/-- C4 (counterexample): with sections `_meta` (hidden) and `pdf`, the help
text lists both names, not only the N−M = 1 selectable one. -/
theorem help_lists_hidden_names_cex :
    printHelp (selectConverters demoConv [("pdf"), ("doc.md")]).1
        = [("_meta"), ("pdf")]
      ∧ selectableNames demoConv = [("pdf")] := by
  exact ⟨by decide, by decide⟩

/-- C8: flag tokens are merged into one character sequence and
de-duplicated as a set, so `-c -V` and `-cV` both yield the option set
\x7b c, V \x7d; an unknown flag such as `-z` is accepted into the option
set without error and changes neither the positional arguments nor the
outcome of the converter selection pass. -/
theorem flag_parsing_dedup_and_unknown_flags_harmless :
    (optionChars [("-c"), ("-V")]).toFinset = (optionChars [("-cV")]).toFinset
      ∧ (optionChars [("-cV")]).toFinset = ({'c', 'V'} : Finset Char)
      ∧ ∀ (conv : List (String × Converter)) (argv : List String),
          selectConverters conv (positionals (argv ++ [("-z")]))
              = selectConverters conv (positionals argv)
            ∧ 'z' ∈ optionChars (argv ++ [("-z")]) := by
  refine ⟨by decide, by decide, fun conv argv => ⟨?_, ?_⟩⟩
  · have hpos : positionals (argv ++ [("-z")]) = positionals argv := by
      unfold positionals
      rw [List.filter_append]
      have h : List.filter (fun a => ! pyStartsWith a ("-")) [("-z")] = [] := rfl
      rw [h, List.append_nil]
    rw [hpos]
  · have hopt : optionChars (argv ++ [("-z")]) = optionChars argv ++ ['z'] := by
      unfold optionChars
      rw [List.filter_append, List.map_append, List.flatten_append, List.filter_append]
      rfl
    rw [hopt]
    exact List.mem_append_right _ (by decide)

/-- cFirst: a demo converter with a pre-command, for the pipeline
counterexamples. -/
def cFirst : Converter :=
  { extension := ("pdf"), command := [("cc")], first := some [[("pre")]], also := none }

/-- C5 (counterexample): the claim says the source path is appended iff
there is no `first` entry; but when the (sole) pre-command's captured
output is empty, `if not stdin` is taken and the path IS appended to the
main command although a `first` entry is present. -/
theorem first_with_empty_output_appends_file_cex :
    runConverter (fun _ => []) ("doc.md") false ("x") cFirst
        = Except.ok [ProcCall.mk [("pre")] none true,
            ProcCall.mk
              [("pandoc"), ("-f"), ("markdown"), ("cc"), ("-o"), ("doc.pdf"), ("doc.md")]
              (some []) false]
      ∧ cFirst.first ≠ none :=
  ⟨rfl, by decide⟩

/-- C10 (counterexample): the claim says tokens containing no placeholder
pass through unchanged; but `str.format` un-escapes doubled braces, so the
placeholder-free pre-command token `a\x7b\x7bb` is executed as `a\x7bb`,
which differs from the original token. -/
theorem brace_escape_token_changed_cex :
    runFirsts (fun _ => [1]) ("doc.md") none [[("a\x7b\x7bb")]]
        = Except.ok ([ProcCall.mk [("a\x7bb")] none true], some [1])
      ∧ ("a\x7bb") ≠ ("a\x7b\x7bb") :=
  ⟨rfl, by decide⟩

/-- C7: whenever after consuming converter names the surviving positional
arguments are not exactly one, or the `h` flag is present, `main` prints
the usage help and exits with status 0, performing no external process
invocation and no conversion. -/
theorem help_path_prints_usage_and_exits_zero
    (exec : List String → List Nat) (src : Option ConfigDoc) (argv : List String)
    (conv : List (String × Converter))
    (hok : readConvertersFromSource src = Except.ok conv)
    (hsel : (selectConverters conv (positionals argv)).2.length ≠ 1
      ∨ 'h' ∈ optionChars argv) :
    mainRun exec src argv
        = MainOutcome.helpExit (printHelp (selectConverters conv (positionals argv)).1)
      ∧ outcomeCalls (mainRun exec src argv) = []
      ∧ mainExitCode (mainRun exec src argv) = some 0 := by
  have hmain : mainRun exec src argv
      = MainOutcome.helpExit (printHelp (selectConverters conv (positionals argv)).1) := by
    simp only [mainRun, hok]
    rw [if_pos hsel]
  refine ⟨hmain, ?_, ?_⟩ <;> rw [hmain] <;> rfl

/-- demoDoc: a one-section configuration document for concrete witnesses. -/
def demoDoc : ConfigDoc :=
  [(("pdf"), [(("extension"), ("pdf")), (("command"), ("pp"))])]

/-- C7 (witness): with a one-converter configuration and argv `-h doc.md`,
`main` takes the help path, runs no process, and exits 0. -/
theorem help_path_prints_usage_and_exits_zero_witness :
    mainRun (fun _ => []) (some demoDoc) [("-h"), ("doc.md")]
        = MainOutcome.helpExit
            (printHelp (selectConverters [(("pdf"), cPdf)]
              (positionals [("-h"), ("doc.md")])).1)
      ∧ outcomeCalls (mainRun (fun _ => []) (some demoDoc) [("-h"), ("doc.md")]) = []
      ∧ mainExitCode (mainRun (fun _ => []) (some demoDoc) [("-h"), ("doc.md")]) = some 0 :=
  help_path_prints_usage_and_exits_zero (fun _ => []) (some demoDoc)
    [("-h"), ("doc.md")] [(("pdf"), cPdf)] rfl (Or.inr (by decide))

lemma selectConverters_fst (conv : List (String × Converter)) (args : List String)
    (h : (conv.map Prod.fst).Nodup) :
    (selectConverters conv args).1 =
      conv.map (fun p =>
        (p.1, if pyStartsWith p.1 ("_") = true ∨ p.1 ∈ args then some p.2 else none)) := by
  induction conv generalizing args with
  | nil => rfl
  | cons hd tl ih =>
      obtain ⟨n, c⟩ := hd
      rw [List.map_cons] at h
      obtain ⟨hn, htl⟩ := List.nodup_cons.mp h
      by_cases hh : pyStartsWith n ("_") = true
      · simp only [selectConverters]
        rw [if_pos hh]
        simp only [List.map_cons]
        rw [if_pos (Or.inl hh)]
        rw [ih args htl]
      · by_cases hm : n ∈ args
        · simp only [selectConverters]
          rw [if_neg hh, if_pos hm]
          simp only [List.map_cons]
          rw [if_pos (Or.inr hm)]
          rw [ih (args.erase n) htl]
          simp only [List.cons.injEq, true_and]
          apply List.map_congr_left
          intro p hp
          have hmem : p.1 ∈ List.map Prod.fst tl := List.mem_map_of_mem Prod.fst hp
          have hne : p.1 ≠ n := fun he => hn (he ▸ hmem)
          simp only [List.mem_erase_of_ne hne]
        · simp only [selectConverters]
          rw [if_neg hh, if_neg hm]
          simp only [List.map_cons]
          rw [if_neg (by rintro (h1 | h2); exacts [hh h1, hm h2])]
          rw [ih args htl]

lemma markdown_skips_disabled (exec : List String → List Nat) (reg : Registry)
    (file : String) (vb : Bool) :
    markdown_to_other exec (reg.filter (fun p => p.2.isSome)) file vb
      = markdown_to_other exec reg file vb := by
  induction reg with
  | nil => rfl
  | cons hd tl ih =>
      obtain ⟨nm, oc⟩ := hd
      cases oc with
      | none => simpa [markdown_to_other, List.filter_cons] using ih
      | some c =>
          simp only [markdown_to_other, List.filter_cons, Option.isSome_some, if_true]
          cases hrc : runConverter exec file vb nm c with
          | error e => rfl
          | ok calls => rw [ih]

/-- C3 (amended): for a registry with distinct section names, after the
selection pass a converter entry is enabled exactly when it is a hidden
`_`-prefixed section or its name is named among the positional tokens;
non-hidden converters not named are disabled, and the Pipeline Runner runs
exactly the enabled entries (disabled entries contribute nothing — their
command is never touched). -/
theorem selection_enables_named_and_hidden
    (conv : List (String × Converter)) (args : List String) (n : String)
    (c : Converter) (exec : List String → List Nat) (reg : Registry)
    (file : String) (vb : Bool)
    (h : (conv.map Prod.fst).Nodup) :
    ((n, some c) ∈ (selectConverters conv args).1
        ↔ (n, c) ∈ conv ∧ (pyStartsWith n ("_") = true ∨ n ∈ args))
      ∧ markdown_to_other exec (reg.filter (fun p => p.2.isSome)) file vb
          = markdown_to_other exec reg file vb := by
  refine ⟨?_, markdown_skips_disabled exec reg file vb⟩
  rw [selectConverters_fst conv args h]
  rw [List.mem_map]
  constructor
  · rintro ⟨⟨p1, p2⟩, hp, heq⟩
    by_cases hc : (pyStartsWith p1 ("_") = true ∨ p1 ∈ args)
    · rw [if_pos hc] at heq
      injection heq with h1 h2
      subst h1
      rw [Option.some.injEq] at h2
      subst h2
      exact ⟨hp, hc⟩
    · rw [if_neg hc] at heq
      injection heq with h1 h2
      exact absurd h2 (by simp)
  · rintro ⟨hmem, hcond⟩
    refine ⟨(n, c), hmem, ?_⟩
    rw [if_pos hcond]

/-- C3 (witness): instantiation at the demo registry: `pdf` is enabled
because it is named, and filtering disabled entries does not change the
pipeline's behavior. -/
theorem selection_enables_named_and_hidden_witness :
    ((("pdf"), some cPdf) ∈ (selectConverters demoConv [("pdf"), ("doc.md")]).1
        ↔ (("pdf"), cPdf) ∈ demoConv
          ∧ (pyStartsWith ("pdf") ("_") = true ∨ ("pdf") ∈ [("pdf"), ("doc.md")]))
      ∧ markdown_to_other (fun _ => []) (([] : Registry).filter (fun p => p.2.isSome))
            ("doc.md") false
          = markdown_to_other (fun _ => []) ([] : Registry) ("doc.md") false :=
  selection_enables_named_and_hidden demoConv [("pdf"), ("doc.md")] ("pdf") cPdf
    (fun _ => []) [] ("doc.md") false (by decide)

lemma charListLt_irrefl : ∀ x : List Char, charListLt x x = false := by
  intro x
  induction x with
  | nil => rfl
  | cons c cs ih => simp [charListLt, ih]

lemma charListLt_asymm : ∀ x y : List Char,
    charListLt x y = true → charListLt y x = false := by
  intro x
  induction x with
  | nil =>
      intro y hy
      cases y with
      | nil => simpa [charListLt] using hy
      | cons d ds => rfl
  | cons c cs ih =>
      intro y hy
      cases y with
      | nil => simpa [charListLt] using hy
      | cons d ds =>
          by_cases h1 : c.toNat < d.toNat
          · have h2 : ¬ d.toNat < c.toNat := by omega
            simp [charListLt, h1, h2]
          · by_cases h2 : d.toNat < c.toNat
            · simp [charListLt, h1, h2] at hy
            · have hcs : charListLt cs ds = true := by
                simpa [charListLt, h1, h2] using hy
              simp [charListLt, h1, h2, ih ds hcs]

lemma charListLt_trichotomy : ∀ x y : List Char,
    charListLt x y = true ∨ x = y ∨ charListLt y x = true := by
  intro x
  induction x with
  | nil =>
      intro y
      cases y with
      | nil => exact Or.inr (Or.inl rfl)
      | cons d ds => exact Or.inl rfl
  | cons c cs ih =>
      intro y
      cases y with
      | nil => exact Or.inr (Or.inr rfl)
      | cons d ds =>
          by_cases h1 : c.toNat < d.toNat
          · exact Or.inl (by simp [charListLt, h1])
          · by_cases h2 : d.toNat < c.toNat
            · exact Or.inr (Or.inr (by simp [charListLt, h1, h2]))
            · have hcd : c = d := by
                have hnat : c.toNat = d.toNat := by omega
                exact Char.ext (UInt32.ext hnat)
              subst hcd
              rcases ih ds with h | h | h
              · exact Or.inl (by simp [charListLt, h1, h2, h])
              · exact Or.inr (Or.inl (by rw [h]))
              · exact Or.inr (Or.inr (by simp [charListLt, h1, h2, h]))

lemma charListLt_trans : ∀ x y z : List Char,
    charListLt x y = true → charListLt y z = true → charListLt x z = true := by
  intro x
  induction x with
  | nil =>
      intro y z hxy hyz
      cases z with
      | nil =>
          cases y with
          | nil => simpa [charListLt] using hxy
          | cons d ds => simpa [charListLt] using hyz
      | cons e es => rfl
  | cons c cs ih =>
      intro y z hxy hyz
      cases y with
      | nil => simpa [charListLt] using hxy
      | cons d ds =>
          cases z with
          | nil => simpa [charListLt] using hyz
          | cons e es =>
              by_cases h1 : c.toNat < d.toNat
              · by_cases h2 : d.toNat < e.toNat
                · have : c.toNat < e.toNat := by omega
                  simp [charListLt, this]
                · by_cases h3 : e.toNat < d.toNat
                  · simp [charListLt, h2, h3] at hyz
                  · have : c.toNat < e.toNat := by omega
                    simp [charListLt, this]
              · by_cases h1b : d.toNat < c.toNat
                · simp [charListLt, h1, h1b] at hxy
                · have hcs : charListLt cs ds = true := by
                    simpa [charListLt, h1, h1b] using hxy
                  by_cases h2 : d.toNat < e.toNat
                  · have : c.toNat < e.toNat := by omega
                    simp [charListLt, this]
                  · by_cases h3 : e.toNat < d.toNat
                    · simp [charListLt, h2, h3] at hyz
                    · have hds : charListLt ds es = true := by
                        simpa [charListLt, h2, h3] using hyz
                      have h4 : ¬ c.toNat < e.toNat := by omega
                      have h5 : ¬ e.toNat < c.toNat := by omega
                      simp [charListLt, h4, h5, ih ds es hcs hds]

instance pyStrLe_total : IsTotal String (fun a b => pyStrLe a b = true) := by
  constructor
  intro a b
  rcases charListLt_trichotomy a.data b.data with h | h | h
  · exact Or.inl (by simp [pyStrLe, charListLt_asymm _ _ h])
  · exact Or.inl (by simp [pyStrLe, h, charListLt_irrefl])
  · exact Or.inr (by simp [pyStrLe, charListLt_asymm _ _ h])

instance pyStrLe_trans : IsTrans String (fun a b => pyStrLe a b = true) := by
  constructor
  intro a b c hab hbc
  simp only [pyStrLe, Bool.not_eq_true'] at hab hbc ⊢
  by_contra hca
  have hca' : charListLt c.data a.data = true := by
    cases h : charListLt c.data a.data with
    | false => exact absurd h hca
    | true => rfl
  rcases charListLt_trichotomy a.data b.data with h | h | h
  · have := charListLt_trans _ _ _ hca' h
    rw [this] at hbc
    exact Bool.noConfusion hbc
  · rw [← h] at hbc
    rw [hca'] at hbc
    exact Bool.noConfusion hbc
  · rw [h] at hab
    exact Bool.noConfusion hab

lemma length_filter_not_add (l : List String) (p : String → Bool) :
    (l.filter (fun a => ! p a)).length + (l.filter p).length = l.length := by
  induction l with
  | nil => rfl
  | cons a t ih =>
      cases h : p a <;> simp [List.filter_cons, h] <;> omega

lemma selectConverters_names (conv : List (String × Converter)) (args : List String) :
    ((selectConverters conv args).1).map Prod.fst = conv.map Prod.fst := by
  induction conv generalizing args with
  | nil => rfl
  | cons hd tl ih =>
      obtain ⟨n, c⟩ := hd
      by_cases hh : pyStartsWith n ("_") = true
      · simp only [selectConverters]
        rw [if_pos hh]
        simp [ih]
      · by_cases hm : n ∈ args
        · simp only [selectConverters]
          rw [if_neg hh, if_pos hm]
          simp [ih]
        · simp only [selectConverters]
          rw [if_neg hh, if_neg hm]
          simp [ih]

/-- C4 (amended): for every loaded registry the selectable names are
exactly the non-hidden section names (N−M of the N sections, where M are
hidden-prefixed); the help text, however, lists ALL N section names —
hidden ones included — in Python's sorted order. -/
theorem help_lists_all_names_sorted (conv : List (String × Converter))
    (args : List String) :
    (selectableNames conv).length
          + ((conv.map Prod.fst).filter (fun n => pyStartsWith n ("_"))).length
        = conv.length
      ∧ (printHelp (selectConverters conv args).1).Perm (conv.map Prod.fst)
      ∧ List.Sorted (fun a b => pyStrLe a b = true)
          (printHelp (selectConverters conv args).1) := by
  refine ⟨?_, ?_, ?_⟩
  · have := length_filter_not_add (conv.map Prod.fst) (fun n => pyStartsWith n ("_"))
    rw [List.length_map] at this
    exact this
  · unfold printHelp
    rw [selectConverters_names]
    exact List.perm_insertionSort _ _
  · exact List.sorted_insertionSort _ _

lemma runFirsts_spec (exec : List String → List Nat) (file : String) :
    ∀ (cmds : List (List String)) (s0 : Option (List Nat)) (evs : List ProcCall)
      (st : Option (List Nat)),
      runFirsts exec file s0 cmds = Except.ok (evs, st) →
      evs.length = cmds.length
        ∧ (∀ pc ∈ evs, pc.input = none ∧ pc.captureOutput = true)
        ∧ st = (match evs.getLast? with
            | none => s0
            | some pc => some (exec pc.cmd)) := by
  intro cmds
  induction cmds with
  | nil =>
      intro s0 evs st h
      simp only [runFirsts] at h
      rw [Except.ok.injEq, Prod.mk.injEq] at h
      obtain ⟨h1, h2⟩ := h
      subst h1
      subst h2
      exact ⟨rfl, by simp, rfl⟩
  | cons command rest ih =>
      intro s0 evs st h
      simp only [runFirsts] at h
      split at h
      · exact Except.noConfusion h
      · rename_i cmd hf
        split at h
        · exact Except.noConfusion h
        · rename_i r hr
          rw [Except.ok.injEq, Prod.mk.injEq] at h
          obtain ⟨h1, h2⟩ := h
          subst h1
          subst h2
          obtain ⟨ih1, ih2, ih3⟩ := ih (some (exec cmd)) r.1 r.2 hr
          refine ⟨by simp [ih1], ?_, ?_⟩
          · intro pc hpc
            rcases List.mem_cons.mp hpc with hh | hh
            · subst hh; exact ⟨rfl, rfl⟩
            · exact ih2 pc hh
          · cases hlast : r.1 with
            | nil =>
                rw [hlast] at ih3
                simpa using ih3
            | cons q qs =>
                rw [hlast] at ih3
                rw [List.getLast?_cons_cons]
                cases hq : (q :: qs).getLast? with
                | none => simp at hq
                | some pc =>
                    simp only [hq] at ih3
                    exact ih3

lemma pyFalsy_iff (st : Option (List Nat)) :
    pyFalsy st = true ↔ (st = none ∨ st = some []) := by
  cases st with
  | none => simp [pyFalsy]
  | some l => cases l <;> simp [pyFalsy]

/-- C5 (amended): the main pandoc invocation carries the source file path
as its final argument exactly when the piped input is falsy — the
converter has no `first` entry, or the last pre-command's captured output
is empty; when pre-commands exist, each is run in order with stdout
captured and the last one's output is what gets piped to the main
command. -/
theorem main_command_appends_file_iff_no_piped_input
    (exec : List String → List Nat) (file : String) (vb : Bool) (name : String)
    (c : Converter) (calls : List ProcCall) (st : Option (List Nat))
    (aevs : List ProcCall)
    (h1 : runFirsts exec file none (c.first.getD []) = Except.ok (calls, st))
    (h2 : runAlsos (c.also.getD []) (outfileOf file c.extension) = Except.ok aevs) :
    runConverter exec file vb name c
        = Except.ok (calls
            ++ [ProcCall.mk
                  (PANDOC ++ c.command ++ [("-o"), outfileOf file c.extension]
                    ++ (if st = none ∨ st = some [] then [file] else []))
                  st false]
            ++ aevs)
      ∧ (pyFalsy st = true ↔ (st = none ∨ st = some []))
      ∧ (c.first = none → calls = [] ∧ st = none)
      ∧ calls.length = (c.first.getD []).length
      ∧ (∀ pc ∈ calls, pc.input = none ∧ pc.captureOutput = true)
      ∧ st = (match calls.getLast? with
          | none => none
          | some pc => some (exec pc.cmd)) := by
  obtain ⟨hlen, hcap, hst⟩ :=
    runFirsts_spec exec file (c.first.getD []) none calls st h1
  refine ⟨?_, pyFalsy_iff st, ?_, hlen, hcap, hst⟩
  · simp only [runConverter, h1, h2]
    by_cases hf : pyFalsy st = true
    · rw [if_pos ((pyFalsy_iff st).mp hf)]
      simp only [hf, if_true]
    · have hf2 : pyFalsy st = false := by
        cases hp : pyFalsy st with
        | false => rfl
        | true => exact absurd hp hf
      rw [if_neg (fun hor => hf ((pyFalsy_iff st).mpr hor))]
      simp only [hf2, Bool.false_eq_true, if_false, List.append_nil]
  · intro hfn
    rw [hfn] at h1
    simp only [Option.getD_none, runFirsts, Except.ok.injEq, Prod.mk.injEq] at h1
    exact ⟨h1.1.symm, h1.2.symm⟩

/-- C5 (witness): instantiation at a converter with one pre-command whose
captured output is empty; the main command does end with the source file. -/
theorem main_command_appends_file_iff_no_piped_input_witness :
    runConverter (fun _ => []) ("doc.md") false ("x") cFirst
        = Except.ok ([ProcCall.mk [("pre")] none true]
            ++ [ProcCall.mk
                  (PANDOC ++ cFirst.command ++ [("-o"), outfileOf ("doc.md") cFirst.extension]
                    ++ (if (some ([] : List Nat) : Option (List Nat)) = none
                          ∨ (some ([] : List Nat) : Option (List Nat)) = some []
                        then [("doc.md")] else []))
                  (some []) false]
            ++ [])
      ∧ (pyFalsy (some []) = true
          ↔ ((some ([] : List Nat) : Option (List Nat)) = none
              ∨ (some ([] : List Nat) : Option (List Nat)) = some []))
      ∧ (cFirst.first = none → [ProcCall.mk [("pre")] none true] = [] ∧ (some ([] : List Nat) : Option (List Nat)) = none)
      ∧ [ProcCall.mk [("pre")] none true].length = (cFirst.first.getD []).length
      ∧ (∀ pc ∈ [ProcCall.mk [("pre")] none true], pc.input = none ∧ pc.captureOutput = true)
      ∧ (some ([] : List Nat) : Option (List Nat))
          = (match [ProcCall.mk [("pre")] none true].getLast? with
              | none => none
              | some pc => some ((fun _ => ([] : List Nat)) pc.cmd)) :=
  main_command_appends_file_iff_no_piped_input (fun _ => []) ("doc.md") false ("x")
    cFirst [ProcCall.mk [("pre")] none true] (some []) [] rfl rfl

lemma splitAtLastOcc_append_eq (sep : Char) :
    ∀ l : List Char, (splitAtLastOcc sep l).1 ++ (splitAtLastOcc sep l).2 = l := by
  intro l
  induction l with
  | nil => rfl
  | cons c rest ih =>
      by_cases hm : sep ∈ rest
      · simp only [splitAtLastOcc]
        rw [if_pos hm]
        simpa using ih
      · by_cases hc : c = sep
        · simp only [splitAtLastOcc]
          rw [if_neg hm, if_pos hc]
          rfl
        · simp only [splitAtLastOcc]
          rw [if_neg hm, if_neg hc]
          rfl

lemma splitAtLastOcc_of_not_mem (sep : Char) (l : List Char) (h : sep ∉ l) :
    splitAtLastOcc sep l = ([], l) := by
  cases l with
  | nil => rfl
  | cons c rest =>
      have hm : sep ∉ rest := fun hh => h (List.mem_cons_of_mem c hh)
      have hc : c ≠ sep := fun hh => h (hh ▸ List.mem_cons_self c rest)
      simp only [splitAtLastOcc]
      rw [if_neg hm, if_neg hc]

lemma splitAtLastOcc_append_no_sep (sep : Char) (l1 l2 : List Char) (h : sep ∉ l2) :
    splitAtLastOcc sep (l1 ++ l2)
      = ((splitAtLastOcc sep l1).1, (splitAtLastOcc sep l1).2 ++ l2) := by
  induction l1 with
  | nil =>
      simp only [List.nil_append]
      rw [splitAtLastOcc_of_not_mem sep l2 h]
      rfl
  | cons c rest ih =>
      by_cases hm : sep ∈ rest
      · have hm2 : sep ∈ rest ++ l2 := List.mem_append_left l2 hm
        simp only [List.cons_append, splitAtLastOcc, List.append_eq]
        rw [if_pos hm2, if_pos hm, ih]
      · have hm2 : sep ∉ rest ++ l2 := by
          intro hh
          rcases List.mem_append.mp hh with h1 | h2
          · exact hm h1
          · exact h h2
        by_cases hc : c = sep
        · simp only [List.cons_append, splitAtLastOcc, List.append_eq]
          rw [if_neg hm2, if_pos hc, if_neg hm, if_pos hc]
        · simp only [List.cons_append, splitAtLastOcc, List.append_eq]
          rw [if_neg hm2, if_neg hc, if_neg hm, if_neg hc]
          rfl

lemma splitAtLastOcc_concat_sep (sep : Char) (l1 l2 : List Char) (h : sep ∉ l2) :
    splitAtLastOcc sep (l1 ++ sep :: l2) = (l1 ++ [sep], l2) := by
  induction l1 with
  | nil =>
      simp only [List.nil_append, splitAtLastOcc]
      rw [if_neg h]
      simp
  | cons c rest ih =>
      have hm : sep ∈ rest ++ sep :: l2 :=
        List.mem_append_right rest (List.mem_cons_self sep l2)
      simp only [List.cons_append, splitAtLastOcc, List.append_eq]
      rw [if_pos hm, ih]

/-- C6: output path derivation replaces the input path's extension: for a
path `stem.ext0` whose extension `ext0` contains no dot and no slash and
whose basename has at least one non-dot character, the output path is
`stem.newext` — directory and base name preserved, suffix replaced, not
appended. -/
theorem outfile_replaces_extension (stem ext0 newext : String)
    (hdot : '.' ∉ ext0.data) (hsl : '/' ∉ ext0.data)
    (hb : ((splitAtLastOcc '/' stem.data).2).any (fun ch => ch != '.') = true) :
    outfileOf (stem ++ (".") ++ ext0) newext = stem ++ (".") ++ newext := by
  have hdata : (stem ++ (".") ++ ext0).data = stem.data ++ '.' :: ext0.data := by
    simp [String.data_append]
  have hnosl : '/' ∉ ('.' :: ext0.data) := by
    intro hh
    rcases List.mem_cons.mp hh with h1 | h2
    · exact absurd h1 (by decide)
    · exact hsl h2
  have h1 : splitAtLastOcc '/' (stem.data ++ '.' :: ext0.data)
      = ((splitAtLastOcc '/' stem.data).1,
          (splitAtLastOcc '/' stem.data).2 ++ '.' :: ext0.data) :=
    splitAtLastOcc_append_no_sep '/' stem.data ('.' :: ext0.data) hnosl
  have h2 : splitAtLastOcc '.' ((splitAtLastOcc '/' stem.data).2 ++ '.' :: ext0.data)
      = ((splitAtLastOcc '/' stem.data).2 ++ ['.'], ext0.data) :=
    splitAtLastOcc_concat_sep '.' (splitAtLastOcc '/' stem.data).2 ext0.data hdot
  have hroot : (splitextData (stem ++ (".") ++ ext0).data).1 = stem.data := by
    rw [hdata]
    unfold splitextData
    rw [h1]
    simp only
    rw [h2]
    simp only
    rw [if_neg (by simp), if_pos (by simpa [List.dropLast_concat] using hb)]
    rw [List.dropLast_concat]
    exact splitAtLastOcc_append_eq '/' stem.data
  unfold outfileOf splitext
  rw [hroot]
  have : (stem.data.asString) = stem := rfl
  rw [this]

/-- C6 (witness): the spec's two examples: `report.md` with extension `pdf`
gives `report.pdf`, and `notes.markdown` with extension `html` gives
`notes.html`. -/
theorem outfile_replaces_extension_witness :
    outfileOf (("report") ++ (".") ++ ("md")) ("pdf")
        = ("report") ++ (".") ++ ("pdf")
      ∧ outfileOf (("notes") ++ (".") ++ ("markdown")) ("html")
        = ("notes") ++ (".") ++ ("html") :=
  ⟨outfile_replaces_extension ("report") ("md") ("pdf")
      (by decide) (by decide) (by decide),
    outfile_replaces_extension ("notes") ("markdown") ("html")
      (by decide) (by decide) (by decide)⟩

lemma pyFormatGo_lit_chunk (fld v : List Char) :
    ∀ (chunk rest : List Char),
      (∀ ch ∈ chunk, ch ≠ '\x7b' ∧ ch ≠ '\x7d') →
      pyFormatGo fld v FmtState.lit (chunk ++ rest)
        = (fun l => chunk ++ l) <$> pyFormatGo fld v FmtState.lit rest := by
  intro chunk
  induction chunk with
  | nil =>
      intro rest hc
      cases h2 : pyFormatGo fld v FmtState.lit rest <;> simp [h2, Except.map]
  | cons ch chunk ih =>
      intro rest hc
      obtain ⟨hno, hnc⟩ := hc ch (List.mem_cons_self ch chunk)
      simp only [List.cons_append, pyFormatGo, List.append_eq]
      rw [if_neg hno, if_neg hnc]
      rw [ih rest (fun x hx => hc x (List.mem_cons_of_mem ch hx))]
      cases h2 : pyFormatGo fld v FmtState.lit rest <;> simp [h2, Except.map]

lemma pyFormatGo_field_consume (fld v : List Char) :
    ∀ (chunk acc rest : List Char),
      (∀ ch ∈ chunk, ch ≠ '\x7b' ∧ ch ≠ '\x7d') →
      pyFormatGo fld v (FmtState.inField acc) (chunk ++ '\x7d' :: rest)
        = if acc ++ chunk = fld
            then (fun l => v ++ l) <$> pyFormatGo fld v FmtState.lit rest
            else Except.error ("KeyError: unknown field") := by
  intro chunk
  induction chunk with
  | nil =>
      intro acc rest hc
      simp only [List.nil_append, pyFormatGo, reduceIte, List.append_nil]
  | cons ch chunk ih =>
      intro acc rest hc
      obtain ⟨hno, hnc⟩ := hc ch (List.mem_cons_self ch chunk)
      simp only [List.cons_append, pyFormatGo, List.append_eq]
      rw [if_neg hnc]
      rw [ih (acc ++ [ch]) rest (fun x hx => hc x (List.mem_cons_of_mem ch hx))]
      have hassoc : acc ++ [ch] ++ chunk = acc ++ ch :: chunk := by
        rw [List.append_assoc]
        rfl
      rw [hassoc]

lemma pyFormatGo_placeholder (fld v rest : List Char)
    (hf : ∀ ch ∈ fld, ch ≠ '\x7b' ∧ ch ≠ '\x7d') :
    pyFormatGo fld v FmtState.lit ('\x7b' :: (fld ++ '\x7d' :: rest))
      = (fun l => v ++ l) <$> pyFormatGo fld v FmtState.lit rest := by
  cases fld with
  | nil =>
      simp [pyFormatGo]
  | cons f0 fr =>
      obtain ⟨hno, hnc⟩ := hf f0 (List.mem_cons_self f0 fr)
      simp only [List.cons_append, pyFormatGo, List.append_eq, reduceIte]
      rw [if_neg hno, if_neg hnc]
      rw [pyFormatGo_field_consume (f0 :: fr) v fr [f0] rest
        (fun x hx => hf x (List.mem_cons_of_mem f0 hx))]
      simp

lemma pyFormatGo_joinWith (fld v : List Char)
    (hf : ∀ ch ∈ fld, ch ≠ '\x7b' ∧ ch ≠ '\x7d') :
    ∀ chunks : List (List Char),
      (∀ chunk ∈ chunks, ∀ ch ∈ chunk, ch ≠ '\x7b' ∧ ch ≠ '\x7d') →
      pyFormatGo fld v FmtState.lit
          (joinWith ('\x7b' :: (fld ++ [('\x7d' : Char)])) chunks)
        = Except.ok (joinWith v chunks) := by
  intro chunks
  induction chunks with
  | nil => intro hc; rfl
  | cons x t ih =>
      intro hc
      cases t with
      | nil =>
          have hx := hc x (List.mem_cons_self x [])
          have h1 := pyFormatGo_lit_chunk fld v x [] hx
          rw [List.append_nil] at h1
          have h2 : pyFormatGo fld v FmtState.lit x = Except.ok (x ++ []) := h1
          rw [List.append_nil] at h2
          simp only [joinWith]
          rw [h2]
      | cons y t2 =>
          have hx := hc x (List.mem_cons_self x (y :: t2))
          have hgroup : ('\x7b' :: (fld ++ [('\x7d' : Char)]))
                ++ joinWith ('\x7b' :: (fld ++ [('\x7d' : Char)])) (y :: t2)
              = '\x7b' :: (fld ++ '\x7d'
                :: joinWith ('\x7b' :: (fld ++ [('\x7d' : Char)])) (y :: t2)) := by
            simp [List.append_assoc]
          simp only [joinWith]
          rw [List.append_assoc, hgroup]
          rw [pyFormatGo_lit_chunk fld v x _ hx]
          rw [pyFormatGo_placeholder fld v _ hf]
          rw [ih (fun chunk hch => hc chunk (List.mem_cons_of_mem x hch))]
          simp [Except.map, joinWith]

/-- C10 (amended): placeholder substitution is embedded substring
substitution with Python `format` escape semantics: for a token built from
brace-free chunks joined by the placeholder `\x7bfld\x7d`, every
placeholder occurrence is replaced by the value (the token may freely mix
placeholder and literal text), and any token containing no brace character
at all passes through unchanged.  (Tokens with other brace uses are
changed or rejected: doubled braces are un-escaped and unknown fields are
errors, as the counterexample shows.) -/
theorem placeholder_substitution_embedded (fld v : String)
    (chunks : List (List Char))
    (hf : ∀ ch ∈ fld.data, ch ≠ '\x7b' ∧ ch ≠ '\x7d')
    (hc : ∀ chunk ∈ chunks, ∀ ch ∈ chunk, ch ≠ '\x7b' ∧ ch ≠ '\x7d') :
    pyFormatGo fld.data v.data FmtState.lit
        (joinWith ('\x7b' :: (fld.data ++ [('\x7d' : Char)])) chunks)
      = Except.ok (joinWith v.data chunks)
    ∧ ∀ s : String, (∀ ch ∈ s.data, ch ≠ '\x7b' ∧ ch ≠ '\x7d') →
        pyFormat fld v s = Except.ok s := by
  refine ⟨pyFormatGo_joinWith fld.data v.data hf chunks hc, ?_⟩
  intro s hs
  have h1 := pyFormatGo_lit_chunk fld.data v.data s.data [] hs
  rw [List.append_nil] at h1
  have h2 : pyFormatGo fld.data v.data FmtState.lit s.data
      = Except.ok (s.data ++ []) := h1
  rw [List.append_nil] at h2
  unfold pyFormat
  rw [h2]
  rfl

/-- C10 (witness): the placeholder token `pre-\x7binfile\x7d.tmp` is
rendered with the file name embedded: chunks `pre-` and `.tmp` joined by
the placeholder become `pre-` and `.tmp` joined by `a.md`. -/
theorem placeholder_substitution_embedded_witness :
    pyFormatGo ("infile").data ("a.md").data FmtState.lit
        (joinWith ('\x7b' :: (("infile").data ++ [('\x7d' : Char)]))
          [("pre-").data, (".tmp").data])
      = Except.ok (joinWith ("a.md").data [("pre-").data, (".tmp").data])
    ∧ ∀ s : String, (∀ ch ∈ s.data, ch ≠ '\x7b' ∧ ch ≠ '\x7d') →
        pyFormat ("infile") ("a.md") s = Except.ok s :=
  placeholder_substitution_embedded ("infile") ("a.md")
    [("pre-").data, (".tmp").data] (by decide) (by decide)
